import Mathlib

/-!
Shallow embedding of the patient-payment analysis program (`app.py`).

Dates are modelled as `Nat` day serials (days since 1970-01-01); a
pandas `NaT` / missing date is `none`.  Monetary amounts are `Rat`
(pandas float64 sums of human-scale ledgers are modelled exactly).
Raw spreadsheet amount cells are kept as `String` (the program runs
`astype(str)` before parsing, so a null cell becomes the string "nan").
-/

namespace PatientApp

/-- `pandas.unique` keeps the first occurrence of each value, in order.
`uniqueAux seen l` drops elements already in `seen` or seen earlier in `l`. -/
def uniqueAux {α : Type} [DecidableEq α] (seen : List α) : List α → List α
  | [] => []
  | x :: xs => if x ∈ seen then uniqueAux seen xs else x :: uniqueAux (x :: seen) xs

/-- Whitespace recognised by Python `str.strip()`. -/
def isSpaceChar (c : Char) : Bool :=
  c = ' ' || c = '\t' || c = '\n' || c = '\r' || c = '\x0b' || c = '\x0c'

/-- Python `str.strip()` on a character list. -/
def pyStrip (cs : List Char) : List Char :=
  ((cs.dropWhile isSpaceChar).reverse.dropWhile isSpaceChar).reverse

/-- ASCII-style case folding used to model `case=False` matching. -/
def upperChar (c : Char) : Char := c.toUpper

/-- Result of `pd.to_numeric` on one cell (after `astype(str)`):
a number, a NaN (null), or a parse failure. -/
inductive NumParse where
  | num (q : Rat)
  | nanVal
  | fail
deriving DecidableEq

/-- Digits of a decimal literal to a natural number. -/
def digitsToNat (cs : List Char) : Nat :=
  cs.foldl (fun a c => a * 10 + (c.toNat - 48)) 0

/-- Unsigned decimal literal: `5`, `5.`, `.5`, `5.0` (scientific notation
is not modelled; the ledgers under analysis use plain decimals). -/
def parseUnsigned (cs : List Char) : Option Rat :=
  let intPart := cs.takeWhile (· ≠ '.')
  let rest := cs.dropWhile (· ≠ '.')
  if intPart.all Char.isDigit then
    match rest with
    | [] => if intPart.isEmpty then none else some (digitsToNat intPart)
    | _ :: frac =>
      if frac.all Char.isDigit && !(frac.contains '.') && !(intPart.isEmpty && frac.isEmpty) then
        some ((digitsToNat intPart : Rat) + (digitsToNat frac : Rat) / ((10 : Rat) ^ frac.length))
      else none
  else none

/-- Signed decimal literal. -/
def parseSigned : List Char → Option Rat
  | '-' :: cs => (parseUnsigned cs).map (fun q => -q)
  | '+' :: cs => parseUnsigned cs
  | cs => parseUnsigned cs

/-- `pd.to_numeric` on one already-stringified cell: strips whitespace,
maps the string "nan" (what `astype(str)` makes of a null cell) to NaN,
parses a signed decimal, otherwise fails. -/
def toNumericCell (cs : List Char) : NumParse :=
  let cs := pyStrip cs
  if cs = ['n', 'a', 'n'] then .nanVal
  else
    match parseSigned cs with
    | some q => .num q
    | none => .fail

/-- Lines 69: `patient_data['I. Liquidado'].astype(str).str.replace(',', '.')`
then `pd.to_numeric(...)` on the cell. -/
def parseNum (s : String) : NumParse :=
  toNumericCell (s.toList.map (fun c => if c = ',' then '.' else c))

/-- One raw row of the combined spreadsheet.  `fActividad` is the already
parsed activity date (`none` = NaT); `iLiquidado` is the raw amount cell
after `astype(str)` (a null cell is the string "nan"). -/
structure Row where
  liquidacion : String
  paciente : String
  fActividad : Option Nat
  producto : String
  iLiquidado : String
  sourceFile : String
deriving DecidableEq

/-- A row after the amount column was successfully converted to numeric
and `dropna(subset=['I. Liquidado'])` ran (lines 69-70). -/
structure PRow where
  fActividad : Option Nat
  producto : String
  iLiquidado : Rat
  sourceFile : String
deriving DecidableEq

/-- The pandas DataFrame: a column-name header plus rows.  A "missing
column" is a name absent from `columns`; the row structure itself always
carries every field, mirroring how the analysis only consults cells of
columns it first checked for. -/
structure DataFrame where
  columns : List String
  rows : List Row
deriving DecidableEq

/-- The 15 literal characters of the pattern `'INGRESO NO QUIR.'` before
its final `.`, which `str.contains` (regex mode, the pandas default)
treats as a wildcard. -/
def patChars : List Char := "INGRESO NO QUIR".toList

/-- Does `'INGRESO NO QUIR.'` match at the head of `cs`?  The literal
characters compare case-insensitively (`case=False`); the trailing regex
`.` consumes one character that is not a newline. -/
def matchLitDot : List Char → List Char → Bool
  | [], [] => false
  | [], c :: _ => c ≠ '\n'
  | _ :: _, [] => false
  | p :: ps, c :: cs => upperChar c = upperChar p && matchLitDot ps cs

/-- Scan of line 11: `str.contains('INGRESO NO QUIR.', case=False)` with
the pandas default `regex=True` — true iff the pattern matches at some
position. -/
def catScan : List Char → Bool
  | [] => false
  | c :: cs => matchLitDot patChars (c :: cs) || catScan cs

/-- Category test applied to a product cell. -/
def categoryMatch (s : String) : Bool := catScan s.toList

/-- Case-insensitive literal (non-regex) substring test; this is what the
specification's words "contains that literal substring ignoring case"
describe.  `subCIAt` tests a match at the head, `subCI` scans. -/
def subCIAt : List Char → List Char → Bool
  | [], _ => true
  | _ :: _, [] => false
  | p :: ps, c :: cs => upperChar c = upperChar p && subCIAt ps cs

/-- Case-insensitive literal substring scan (spec reading of line 11). -/
def subCI (pat : List Char) : List Char → Bool
  | [] => subCIAt pat []
  | c :: cs => subCIAt pat (c :: cs) || subCI pat cs

/-- Case-sensitive substring scan, modelling line 52's
`df['Liquidación'].astype(str).str.contains(str(person_under_control))`
for plain (regex-metacharacter-free) person names. -/
def subAt : List Char → List Char → Bool
  | [], _ => true
  | _ :: _, [] => false
  | p :: ps, c :: cs => p = c && subAt ps cs

/-- Scan for `subAt`. -/
def subScan (pat : List Char) : List Char → Bool
  | [] => subAt pat []
  | c :: cs => subAt pat (c :: cs) || subScan pat cs

/-- Civil date (year, month, day) from a 1970-01-01 day serial
(Howard Hinnant's `civil_from_days`, specialised to non-negative
serials). -/
def civilFromDays (n : Nat) : Nat × Nat × Nat :=
  let z := n + 719468
  let era := z / 146097
  let doe := z % 146097
  let yoe := (doe - doe / 1460 + doe / 36524 - doe / 146096) / 365
  let y := yoe + era * 400
  let doy := doe - (365 * yoe + yoe / 4 - yoe / 100)
  let mp := (5 * doy + 2) / 153
  let d := doy - (153 * mp + 2) / 5 + 1
  let m := if mp < 10 then mp + 3 else mp - 9
  (if m ≤ 2 then y + 1 else y, m, d)

/-- Zero-padded two-digit rendering used by `%d`, `%m`, `%y`. -/
def two (n : Nat) : String :=
  if n < 10 then "0" ++ toString n else toString n

/-- `strftime('%d-%m-%y')` on a day serial. -/
def fmtDate (n : Nat) : String :=
  let c := civilFromDays n
  two c.2.2 ++ "-" ++ two c.2.1 ++ "-" ++ two (c.1 % 100)

/-- Distinct present activity dates of the category-matching rows, in
first-occurrence order: lines 11-20 (`unique`, then drop NaT). -/
def presentDays (rows : List PRow) : List Nat :=
  (uniqueAux [] ((rows.filter (fun r => categoryMatch r.producto)).map (·.fActividad))).filterMap id

/-- `find_missing_dates` (lines 7-35): filter to the category, collect
distinct non-null dates, and if at least two exist return the dates of
the inclusive daily range `min..max` that are not present, each
formatted `%d-%m-%y`. -/
def find_missing_dates (rows : List PRow) : List String :=
  let ing := rows.filter (fun r => categoryMatch r.producto)
  if ing.isEmpty then []
  else
    let present := (uniqueAux [] (ing.map (·.fActividad))).filterMap id
    if present.length < 2 then []
    else
      match present.min?, present.max? with
      | some s, some e =>
        ((((List.range (e + 1 - s)).map (s + ·)).filter (fun d => !(present.contains d))).map fmtDate)
      | _, _ => []

/-- Lines 241-243: `re.search(r'-(.*?)$', s)`.  For the newline-free
identifier strings at hand, `re.search` takes the leftmost position where
the pattern can match — the FIRST hyphen — and the lazy group then has to
expand to the rest of the string so that the end anchor matches, so the
captured group is everything after the first hyphen. -/
def searchDashGroup : List Char → Option (List Char)
  | [] => none
  | c :: cs => if c = '-' then some cs else searchDashGroup cs

/-- `match.group(1).strip()` applied to the settlement identifier. -/
def personUnderControl (s : String) : Option String :=
  (searchDashGroup s.toList).map (fun g => String.mk (pyStrip g))

/-- Lines 239-243: the person under control extracted from the first
`Liquidación` cell of the combined dataset (stays `None` when the column
is absent, the dataset is empty, or the regex finds no hyphen). -/
def mainExtract (df : DataFrame) : Option String :=
  if df.columns.contains "Liquidación" then
    match df.rows with
    | [] => none
    | r :: _ => personUnderControl r.liquidacion
  else none

/-- Lines 69-70 on one patient's rows: `pd.to_numeric(..., errors='ignore')`
converts the whole column only when every cell parses (on any failure it
returns the column unchanged, so no numeric work can happen downstream —
modelled as `none`); on success, `dropna` then removes the NaN rows. -/
def convertAndDrop (rows : List Row) : Option (List PRow) :=
  if rows.all (fun r => parseNum r.iLiquidado ≠ NumParse.fail) then
    some (rows.filterMap (fun r =>
      match parseNum r.iLiquidado with
      | .num q => some ⟨r.fActividad, r.producto, q, r.sourceFile⟩
      | _ => none))
  else none

/-- Lines 69-76: the per-patient total `patient_data['I. Liquidado'].sum()`
after conversion and `dropna`; `none` when the column conversion was
skipped by `errors='ignore'` and no numeric total exists. -/
def computeTotal (rows : List Row) : Option Rat :=
  (convertAndDrop rows).map (fun ps => (ps.map (·.iLiquidado)).sum)

/-- The distinct activity dates of a modality slice in ascending order:
the group keys of `groupby('F. Actividad')`, which sorts its keys and
drops NaT. -/
def dayKeys (rows : List PRow) : List Nat :=
  let ds := rows.filterMap (·.fActividad)
  (List.range (ds.foldr max 0 + 1)).filter (fun d => ds.contains d)

/-- Line 97: the summed amount of one date's rows. -/
def daySum (rows : List PRow) (d : Nat) : Rat :=
  ((rows.filter (fun r => r.fActividad = some d)).map (·.iLiquidado)).sum

/-- Line 97: `money_per_day`, date-indexed sums. -/
def moneyPerDay (rows : List PRow) : List (Nat × Rat) :=
  (dayKeys rows).map (fun d => (d, daySum rows d))

/-- Lines 100-104: `value_counts().idxmax()` — a most frequent value.
pandas leaves the order among equal counts unspecified; this model breaks
ties by the first occurrence in the series. -/
def mostCommonValue (vs : List Rat) : Option Rat :=
  match uniqueAux [] vs with
  | [] => none
  | v :: rest => some (rest.foldl (fun b x => if vs.count b < vs.count x then x else b) v)

/-- Line 111: number of distinct source files among one date's rows. -/
def daySources (rows : List PRow) (d : Nat) : Nat :=
  (uniqueAux [] ((rows.filter (fun r => r.fActividad = some d)).map (·.sourceFile))).length

/-- Lines 111-112: dates whose rows come from more than one file. -/
def crossFileDates (rows : List PRow) : List Nat :=
  (dayKeys rows).filter (fun d => 1 < daySources rows d)

/-- Lines 107-109: dates whose daily aggregate differs from the mode. -/
def weirdPaymentDates (rows : List PRow) : List Nat :=
  match mostCommonValue ((moneyPerDay rows).map (·.2)) with
  | none => []
  | some m => (dayKeys rows).filter (fun d => daySum rows d ≠ m)

/-- Reason tag attached to a flagged date (lines 124-127). -/
inductive Reason where
  | unusualPayment
  | multiSource
deriving DecidableEq

/-- Lines 107-127 for one (patient, product) slice: the union of
payment-outlier dates and cross-file dates, sorted chronologically, each
with its daily amount (`money_per_day.get`) and a single reason tag —
multi-source wins when a date qualifies for both. -/
def detectAnomalousPayments (rows : List PRow) : List (Nat × Option Rat × Reason) :=
  ((dayKeys rows).filter (fun d =>
      (weirdPaymentDates rows).contains d || (crossFileDates rows).contains d)).map
    (fun d => (d, (moneyPerDay rows).lookup d,
      if 1 < daySources rows d then Reason.multiSource else Reason.unusualPayment))

/-- Per-patient block of the report (lines 61-84; the per-modality
rendering of lines 86-140 is modelled by `detectAnomalousPayments`). -/
structure PatientReport where
  patient : String
  total : Option Rat
  missingDays : Option (List String)
deriving DecidableEq

/-- One patient's pass through lines 63-80. -/
def perPatient (pdata : List Row) (p : String) : PatientReport :=
  { patient := p
    total := computeTotal pdata
    missingDays := (convertAndDrop pdata).map find_missing_dates }

/-- Line 46. -/
def requiredColumns : List String :=
  ["Liquidación", "Paciente", "F. Actividad", "Producto", "I. Liquidado", "source_file"]

/-- Outcome of `process_data`: each early `return` is a constructor. -/
inductive ProcResult where
  | emptyWarning
  | schemaError (missing : List String)
  | noDataWarning
  | report (reps : List PatientReport)
deriving DecidableEq

/-- `process_data` (lines 37-84): empty check, required-column check
(reporting the set of missing columns), filter by the person under
control, then one report block per distinct patient. -/
def process_data (df : DataFrame) (puc : String) : ProcResult :=
  if df.rows.isEmpty then .emptyWarning
  else if !(requiredColumns.all (fun c => df.columns.contains c)) then
    .schemaError (requiredColumns.filter (fun c => !(df.columns.contains c)))
  else
    let filtered := df.rows.filter (fun r => subScan puc.toList r.liquidacion.toList)
    if filtered.isEmpty then .noDataWarning
    else
      .report ((uniqueAux [] (filtered.map (·.paciente))).map
        (fun p => perPatient (filtered.filter (fun r => r.paciente = p)) p))

/-! ### Basic lemmas about the helper functions -/

theorem contains_iff {α : Type} [BEq α] [LawfulBEq α] (l : List α) (a : α) :
    l.contains a = true ↔ a ∈ l := by
  simp [List.contains]

theorem mem_uniqueAux {α : Type} [DecidableEq α] (seen : List α) (l : List α) (x : α) :
    x ∈ uniqueAux seen l ↔ x ∈ l ∧ x ∉ seen := by
  induction l generalizing seen with
  | nil => simp [uniqueAux]
  | cons y ys ih =>
    by_cases hy : y ∈ seen
    · simp only [uniqueAux, if_pos hy, ih, List.mem_cons]
      by_cases hxy : x = y
      · subst hxy; tauto
      · tauto
    · simp only [uniqueAux, if_neg hy, List.mem_cons, ih]
      by_cases hxy : x = y
      · subst hxy; tauto
      · tauto

theorem nodup_uniqueAux {α : Type} [DecidableEq α] (seen : List α) (l : List α) :
    (uniqueAux seen l).Nodup := by
  induction l generalizing seen with
  | nil => simp [uniqueAux]
  | cons y ys ih =>
    by_cases hy : y ∈ seen
    · simpa [uniqueAux, if_pos hy] using ih seen
    · simp only [uniqueAux, if_neg hy]
      refine List.nodup_cons.mpr ⟨fun hmem => ?_, ih (y :: seen)⟩
      exact ((mem_uniqueAux _ _ _).mp hmem).2 (List.mem_cons_self _ _)

theorem uniqueAux_eq_nil {α : Type} [DecidableEq α] {seen l : List α}
    (h : ∀ y ∈ l, y ∈ seen) : uniqueAux seen l = [] := by
  induction l with
  | nil => rfl
  | cons y ys ih =>
    have hy : y ∈ seen := h y (List.mem_cons_self _ _)
    simp only [uniqueAux, if_pos hy]
    exact ih (fun z hz => h z (List.mem_cons_of_mem _ hz))

theorem uniqueAux_append {α : Type} [DecidableEq α] {seen xs ys : List α}
    (h : ∀ y ∈ ys, y ∈ xs ∨ y ∈ seen) : uniqueAux seen (xs ++ ys) = uniqueAux seen xs := by
  induction xs generalizing seen with
  | nil =>
    simp only [List.nil_append, uniqueAux]
    exact uniqueAux_eq_nil (fun y hy => (h y hy).resolve_left (by simp))
  | cons x xs ih =>
    by_cases hx : x ∈ seen
    · simp only [List.cons_append, uniqueAux, if_pos hx]
      refine ih (fun y hy => ?_)
      rcases h y hy with hm | hm
      · rcases List.mem_cons.mp hm with rfl | hm
        · exact Or.inr hx
        · exact Or.inl hm
      · exact Or.inr hm
    · simp only [List.cons_append, uniqueAux, if_neg hx]
      refine congrArg (x :: ·) (ih (fun y hy => ?_))
      rcases h y hy with hm | hm
      · rcases List.mem_cons.mp hm with rfl | hm
        · exact Or.inr (List.mem_cons_self _ _)
        · exact Or.inl hm
      · exact Or.inr (List.mem_cons_of_mem _ hm)

theorem le_foldr_max {x : Nat} {l : List Nat} (h : x ∈ l) : x ≤ l.foldr max 0 := by
  induction l with
  | nil => cases h
  | cons y ys ih =>
    rcases List.mem_cons.mp h with rfl | h
    · exact le_max_left _ _
    · exact le_trans (ih h) (le_max_right _ _)

theorem mem_dayKeys {rows : List PRow} {d : Nat} :
    d ∈ dayKeys rows ↔ ∃ r ∈ rows, r.fActividad = some d := by
  unfold dayKeys
  simp only [List.mem_filter, List.mem_range, contains_iff, List.mem_filterMap, id_eq]
  constructor
  · rintro ⟨-, r, hr, hd⟩; exact ⟨r, hr, hd⟩
  · rintro ⟨r, hr, hd⟩
    have hmem : d ∈ rows.filterMap (·.fActividad) :=
      List.mem_filterMap.mpr ⟨r, hr, hd⟩
    exact ⟨Nat.lt_succ_of_le (le_foldr_max hmem), r, hr, hd⟩

theorem dayKeys_pairwise (rows : List PRow) : (dayKeys rows).Pairwise (· < ·) :=
  List.Pairwise.sublist (List.filter_sublist _) (List.pairwise_lt_range _)

theorem dayKeys_nodup (rows : List PRow) : (dayKeys rows).Nodup :=
  (dayKeys_pairwise rows).imp Nat.ne_of_lt

theorem filter_eq_single {α : Type} {l : List α} {p : α → Bool} {a : α}
    (hnd : l.Nodup) (ha : a ∈ l) (hp : ∀ x ∈ l, p x = true ↔ x = a) :
    l.filter p = [a] := by
  induction l with
  | nil => cases ha
  | cons y ys ih =>
    rcases List.nodup_cons.mp hnd with ⟨hyns, hnd'⟩
    rcases List.mem_cons.mp ha with rfl | ha'
    · have hpy : p a = true := (hp a (List.mem_cons_self _ _)).mpr rfl
      have : ys.filter p = [] := by
        refine List.filter_eq_nil_iff.mpr (fun x hx => ?_)
        intro hpx
        exact hyns (((hp x (List.mem_cons_of_mem _ hx)).mp hpx) ▸ hx)
      simp [List.filter_cons, hpy, this]
    · have hpy : p y = false := by
        by_contra hne
        have : p y = true := by revert hne; cases p y <;> simp
        exact hyns ((hp y (List.mem_cons_self _ _)).mp this ▸ ha')
      have := ih hnd' ha' (fun x hx => hp x (List.mem_cons_of_mem _ hx))
      simp [List.filter_cons, hpy, this]

theorem foldl_argmax_spec (f : Rat → Nat) (xs : List Rat) (b : Rat) :
    (xs.foldl (fun b x => if f b < f x then x else b) b = b ∨
      xs.foldl (fun b x => if f b < f x then x else b) b ∈ xs) ∧
    f b ≤ f (xs.foldl (fun b x => if f b < f x then x else b) b) ∧
    ∀ x ∈ xs, f x ≤ f (xs.foldl (fun b x => if f b < f x then x else b) b) := by
  induction xs generalizing b with
  | nil => exact ⟨Or.inl rfl, le_refl _, by simp⟩
  | cons y ys ih =>
    simp only [List.foldl_cons]
    by_cases hlt : f b < f y
    · rw [if_pos hlt]
      rcases ih y with ⟨hmem, hble, hall⟩
      refine ⟨?_, le_trans (le_of_lt hlt) hble, ?_⟩
      · rcases hmem with h | h
        · exact Or.inr (by rw [h]; exact List.mem_cons_self _ _)
        · exact Or.inr (List.mem_cons_of_mem _ h)
      · intro x hx
        rcases List.mem_cons.mp hx with rfl | hx
        · exact hble
        · exact hall x hx
    · rw [if_neg hlt]
      rcases ih b with ⟨hmem, hble, hall⟩
      refine ⟨?_, hble, ?_⟩
      · rcases hmem with h | h
        · exact Or.inl h
        · exact Or.inr (List.mem_cons_of_mem _ h)
      · intro x hx
        rcases List.mem_cons.mp hx with rfl | hx
        · exact le_trans (Nat.le_of_not_lt hlt) hble
        · exact hall x hx

theorem mostCommonValue_spec {vs : List Rat} {m : Rat} (h : mostCommonValue vs = some m) :
    m ∈ vs ∧ ∀ x ∈ vs, vs.count x ≤ vs.count m := by
  unfold mostCommonValue at h
  rcases hu : uniqueAux ([] : List Rat) vs with _ | ⟨v, rest⟩
  · rw [hu] at h; cases h
  · rw [hu] at h
    have hm : m = rest.foldl (fun b x => if vs.count b < vs.count x then x else b) v :=
      (Option.some.injEq _ _ ▸ h).symm
    rcases foldl_argmax_spec (vs.count ·) rest v with ⟨hmem, hvle, hall⟩
    constructor
    · rcases hm ▸ hmem with h' | h'
      · have : v ∈ uniqueAux ([] : List Rat) vs := hu ▸ List.mem_cons_self _ _
        exact h' ▸ ((mem_uniqueAux _ _ _).mp this).1
      · have : m ∈ uniqueAux ([] : List Rat) vs := hu ▸ List.mem_cons_of_mem _ (hm ▸ h')
        exact ((mem_uniqueAux _ _ _).mp this).1
    · intro x hx
      have : x ∈ uniqueAux ([] : List Rat) vs := (mem_uniqueAux _ _ _).mpr ⟨hx, by simp⟩
      rw [hu] at this
      rcases List.mem_cons.mp this with rfl | hxr
      · exact hm ▸ hvle
      · exact hm ▸ hall x hxr

theorem mostCommonValue_isSome {vs : List Rat} (h : vs ≠ []) :
    ∃ m, mostCommonValue vs = some m := by
  unfold mostCommonValue
  rcases hu : uniqueAux ([] : List Rat) vs with _ | ⟨v, rest⟩
  · rcases vs with _ | ⟨w, ws⟩
    · exact absurd rfl h
    · have : w ∈ uniqueAux ([] : List Rat) (w :: ws) :=
        (mem_uniqueAux _ _ _).mpr ⟨List.mem_cons_self _ _, by simp⟩
      rw [hu] at this; cases this
  · exact ⟨_, rfl⟩

theorem lookup_mapKeys (g : Nat → Rat) (keys : List Nat) (d : Nat) (h : d ∈ keys) :
    (keys.map (fun k => (k, g k))).lookup d = some (g d) := by
  induction keys with
  | nil => cases h
  | cons k ks ih =>
    rcases List.mem_cons.mp h with rfl | h'
    · simp [List.lookup]
    · by_cases hdk : d = k
      · subst hdk; simp [List.lookup]
      · simp only [List.map_cons, List.lookup]
        rw [beq_eq_false_iff_ne.mpr hdk]
        exact ih h'

theorem natMin?_spec {l : List Nat} {a : Nat} (h : l.min? = some a) :
    a ∈ l ∧ ∀ b ∈ l, a ≤ b :=
  (List.min?_eq_some_iff (fun a => le_refl a) (fun a b => min_choice a b)
    (fun _ _ _ => le_min_iff)).mp h

theorem natMax?_spec {l : List Nat} {a : Nat} (h : l.max? = some a) :
    a ∈ l ∧ ∀ b ∈ l, b ≤ a :=
  (List.max?_eq_some_iff (fun a => le_refl a) (fun a b => max_choice a b)
    (fun _ _ _ => max_le_iff)).mp h

theorem mem_presentDays {rows : List PRow} {d : Nat} :
    d ∈ presentDays rows ↔ ∃ r ∈ rows, categoryMatch r.producto = true ∧ r.fActividad = some d := by
  unfold presentDays
  simp only [List.mem_filterMap, id_eq, mem_uniqueAux, List.mem_map, List.mem_filter,
    List.not_mem_nil, not_false_iff, and_true]
  constructor
  · rintro ⟨a, ⟨r, ⟨hr, hcat⟩, rfl⟩, ha⟩
    exact ⟨r, hr, hcat, ha⟩
  · rintro ⟨r, hr, hcat, hd⟩
    exact ⟨some d, ⟨r, ⟨hr, hcat⟩, hd⟩, rfl⟩

theorem nodup_presentDays (rows : List PRow) : (presentDays rows).Nodup := by
  unfold presentDays
  refine List.Nodup.filterMap ?_ (nodup_uniqueAux _ _)
  intro a a' b hb hb'
  simp only [id_eq, Option.mem_def] at hb hb'
  rw [hb, hb']

theorem mem_rangeMap {s e x : Nat} (hse : s ≤ e) :
    x ∈ (List.range (e + 1 - s)).map (s + ·) ↔ s ≤ x ∧ x ≤ e := by
  simp only [List.mem_map, List.mem_range]
  constructor
  · rintro ⟨k, hk, rfl⟩
    omega
  · rintro ⟨h1, h2⟩
    exact ⟨x - s, by omega, by omega⟩

theorem rangeMapFilter_pairwise (s n : Nat) (p : Nat → Bool) :
    (((List.range n).map (s + ·)).filter p).Pairwise (· < ·) :=
  List.Pairwise.sublist (List.filter_sublist _)
    (List.pairwise_map.mpr ((List.pairwise_lt_range n).imp (fun h => by omega)))

theorem find_missing_dates_eq {rows : List PRow} {mn mx : Nat}
    (h2 : 2 ≤ (presentDays rows).length)
    (hmn : (presentDays rows).min? = some mn)
    (hmx : (presentDays rows).max? = some mx) :
    find_missing_dates rows =
      (((List.range (mx + 1 - mn)).map (mn + ·)).filter
        (fun d => !((presentDays rows).contains d))).map fmtDate := by
  have hne : (rows.filter (fun r => categoryMatch r.producto)).isEmpty = false := by
    rcases hfil : rows.filter (fun r => categoryMatch r.producto) with _ | ⟨r, rs⟩
    · exfalso
      have hp : presentDays rows = [] := by
        unfold presentDays; rw [hfil]; rfl
      rw [hp] at h2
      simp at h2
    · rw [hfil]; rfl
  have hpres : (uniqueAux []
      ((rows.filter (fun r => categoryMatch r.producto)).map (·.fActividad))).filterMap id
        = presentDays rows := rfl
  unfold find_missing_dates
  simp only [hne, Bool.false_eq_true, if_false, hpres, hmn, hmx,
    Nat.not_lt.mpr h2, if_neg (by omega : ¬ (presentDays rows).length < 2)]

theorem contains_eq_false_iff {α : Type} [BEq α] [LawfulBEq α] (l : List α) (a : α) :
    l.contains a = false ↔ a ∉ l := by
  rw [Bool.eq_false_iff, Ne, contains_iff]

theorem find_missing_dates_of_short {rows : List PRow}
    (h2 : (presentDays rows).length < 2) : find_missing_dates rows = [] := by
  have hpres : (uniqueAux []
      ((rows.filter (fun r => categoryMatch r.producto)).map (·.fActividad))).filterMap id
        = presentDays rows := rfl
  cases hb : (rows.filter (fun r => categoryMatch r.producto)).isEmpty
  · simp only [find_missing_dates, hb, Bool.false_eq_true, if_false, hpres, if_pos h2]
  · simp only [find_missing_dates, hb, if_true]

theorem presentDays_append {rows dups : List PRow} (hd : ∀ r ∈ dups, r ∈ rows) :
    presentDays (rows ++ dups) = presentDays rows := by
  unfold presentDays
  rw [List.filter_append, List.map_append]
  rw [uniqueAux_append]
  intro y hy
  left
  rcases List.mem_map.mp hy with ⟨r, hr, rfl⟩
  rcases List.mem_filter.mp hr with ⟨hrd, hcat⟩
  exact List.mem_map_of_mem _ (List.mem_filter.mpr ⟨hd r hrd, hcat⟩)

/-- C2: when the category-matching records have at least two distinct
non-null activity dates, `find_missing_dates` returns exactly the days of
the inclusive range from the minimum to the maximum present date that are
absent from the present-date set — no false positives or negatives — each
formatted `DD-MM-YY`, in chronological order. -/
theorem find_missing_dates_complement (rows : List PRow) (mn mx : Nat)
    (h2 : 2 ≤ (presentDays rows).length)
    (hmn : (presentDays rows).min? = some mn)
    (hmx : (presentDays rows).max? = some mx) :
    ∃ L : List Nat,
      find_missing_dates rows = L.map fmtDate ∧
      L.Pairwise (· < ·) ∧
      ∀ x, x ∈ L ↔ (mn ≤ x ∧ x ≤ mx ∧ x ∉ presentDays rows) := by
  have hse : mn ≤ mx := (natMin?_spec hmn).2 mx (natMax?_spec hmx).1
  refine ⟨((List.range (mx + 1 - mn)).map (mn + ·)).filter
      (fun d => !((presentDays rows).contains d)),
    find_missing_dates_eq h2 hmn hmx, rangeMapFilter_pairwise _ _ _, fun x => ?_⟩
  rw [List.mem_filter, mem_rangeMap hse, Bool.not_eq_true',
    contains_eq_false_iff, and_assoc]

/-- Witness for C2 on a concrete ledger: present days 0 and 2, so the
returned gap list is exactly day 1. -/
theorem find_missing_dates_complement_witness :
    ∃ L : List Nat,
      find_missing_dates [⟨some 0, "INGRESO NO QUIR.", 5, "f"⟩,
        ⟨some 2, "INGRESO NO QUIR.", 5, "f"⟩] = L.map fmtDate ∧
      L.Pairwise (· < ·) ∧
      ∀ x, x ∈ L ↔ (0 ≤ x ∧ x ≤ 2 ∧
        x ∉ presentDays [⟨some 0, "INGRESO NO QUIR.", 5, "f"⟩,
          ⟨some 2, "INGRESO NO QUIR.", 5, "f"⟩]) :=
  find_missing_dates_complement
    [⟨some 0, "INGRESO NO QUIR.", 5, "f"⟩, ⟨some 2, "INGRESO NO QUIR.", 5, "f"⟩]
    0 2 (by decide) (by decide) (by decide)

/-- C3: with fewer than two distinct (non-null) present dates the gap
list is empty, no matter how many rows there are: appending any number of
duplicate rows keeps the result empty, and the distinct-date list is
duplicate-free (same-day duplicates count once). -/
theorem find_missing_dates_short (rows dups : List PRow)
    (hd : ∀ r ∈ dups, r ∈ rows)
    (h2 : (presentDays rows).length < 2) :
    find_missing_dates rows = [] ∧
    find_missing_dates (rows ++ dups) = [] ∧
    (presentDays (rows ++ dups)).Nodup := by
  refine ⟨find_missing_dates_of_short h2, ?_, nodup_presentDays _⟩
  exact find_missing_dates_of_short (by rw [presentDays_append hd]; exact h2)

/-- Witness for C3: three rows, all on the same calendar day, one of them
a duplicated timestamp — a single distinct present date, empty result. -/
theorem find_missing_dates_short_witness :
    find_missing_dates [⟨some 5, "INGRESO NO QUIR.", 1, "f"⟩,
      ⟨some 5, "INGRESO NO QUIR.", 2, "f"⟩] = [] ∧
    find_missing_dates ([⟨some 5, "INGRESO NO QUIR.", 1, "f"⟩,
      ⟨some 5, "INGRESO NO QUIR.", 2, "f"⟩] ++
        [⟨some 5, "INGRESO NO QUIR.", 1, "f"⟩]) = [] ∧
    (presentDays ([⟨some 5, "INGRESO NO QUIR.", 1, "f"⟩,
      ⟨some 5, "INGRESO NO QUIR.", 2, "f"⟩] ++
        [⟨some 5, "INGRESO NO QUIR.", 1, "f"⟩])).Nodup :=
  find_missing_dates_short
    [⟨some 5, "INGRESO NO QUIR.", 1, "f"⟩, ⟨some 5, "INGRESO NO QUIR.", 2, "f"⟩]
    [⟨some 5, "INGRESO NO QUIR.", 1, "f"⟩] (by decide) (by decide)

theorem matchLitDot_iff (ps cs : List Char) :
    matchLitDot ps cs = true ↔
      ∃ mid c post, cs = mid ++ c :: post ∧
        mid.map upperChar = ps.map upperChar ∧ c ≠ '\n' := by
  induction ps generalizing cs with
  | nil =>
    rcases cs with _ | ⟨c, rest⟩
    · simp [matchLitDot]
    · simp only [matchLitDot, List.map_nil, decide_eq_true_eq]
      constructor
      · intro h
        exact ⟨[], c, rest, rfl, rfl, h⟩
      · rintro ⟨mid, c', post, heq, hmap, hc⟩
        rcases List.map_eq_nil_iff.mp hmap with rfl
        rw [List.nil_append] at heq
        injection heq with h1 h2
        exact h1 ▸ hc
  | cons p ps ih =>
    rcases cs with _ | ⟨c, rest⟩
    · constructor
      · intro h; cases h
      · rintro ⟨mid, c', post, heq, -, -⟩
        rcases mid with _ | ⟨m, mid'⟩ <;> cases heq
    · simp only [matchLitDot, Bool.and_eq_true, decide_eq_true_eq, ih]
      constructor
      · rintro ⟨hup, mid, c', post, rfl, hmap, hc⟩
        refine ⟨c :: mid, c', post, rfl, ?_, hc⟩
        simp only [List.map_cons, hmap, hup]
      · rintro ⟨mid, c', post, heq, hmap, hc⟩
        rcases mid with _ | ⟨m, mid'⟩
        · simp at hmap
        · rw [List.cons_append] at heq
          injection heq with h1 h2
          subst h1
          rw [List.map_cons, List.map_cons] at hmap
          injection hmap with hm1 hm2
          exact ⟨hm1, mid', c', post, h2, hm2, hc⟩

theorem catScan_iff (cs : List Char) :
    catScan cs = true ↔
      ∃ pre mid c post, cs = pre ++ mid ++ c :: post ∧
        mid.map upperChar = patChars ∧ c ≠ '\n' := by
  have hpat : patChars.map upperChar = patChars := by decide
  induction cs with
  | nil =>
    constructor
    · intro h; cases h
    · rintro ⟨pre, mid, c, post, heq, -, -⟩
      rcases pre with _ | _ <;> rcases mid with _ | _ <;> cases heq
  | cons c cs ih =>
    simp only [catScan, Bool.or_eq_true, ih, matchLitDot_iff, hpat]
    constructor
    · rintro (⟨mid, c', post, heq, hmap, hc⟩ | ⟨pre, mid, c', post, heq, hmap, hc⟩)
      · exact ⟨[], mid, c', post, by simpa using heq, hmap, hc⟩
      · exact ⟨c :: pre, mid, c', post, by simp [heq], hmap, hc⟩
    · rintro ⟨pre, mid, c', post, heq, hmap, hc⟩
      rcases pre with _ | ⟨p, pre'⟩
      · rw [List.nil_append] at heq
        exact Or.inl ⟨mid, c', post, heq, hmap, hc⟩
      · rw [List.cons_append, List.cons_append] at heq
        injection heq with h1 h2
        exact Or.inr ⟨pre', mid, c', post, by simpa using h2, hmap, hc⟩

/-- C4 counterexample: the product cell "INGRESO NO QUIRX" is selected by
the program's category filter (the pandas-default regex mode treats the
final `.` of `'INGRESO NO QUIR.'` as a wildcard) although it does not
contain the literal substring "INGRESO NO QUIR." even ignoring case. -/
theorem category_literal_counterexample :
    (⟨some 0, "INGRESO NO QUIRX", 5, "f"⟩ : PRow) ∈
      List.filter (fun r => categoryMatch r.producto)
        [(⟨some 0, "INGRESO NO QUIRX", 5, "f"⟩ : PRow)] ∧
    subCI "INGRESO NO QUIR.".toList "INGRESO NO QUIRX".toList = false := by
  decide

/-- C4 (amended): the gap analysis selects exactly the records whose
product contains, case-insensitively, the characters "INGRESO NO QUIR"
followed by one arbitrary (non-newline) character — the final `.` of the
category string acts as a regex wildcard, not as a literal dot. -/
theorem category_selection_amended (rows : List PRow) (r : PRow) :
    r ∈ rows.filter (fun r => categoryMatch r.producto) ↔
      r ∈ rows ∧ ∃ pre mid c post,
        r.producto.toList = pre ++ mid ++ c :: post ∧
        mid.map upperChar = patChars ∧ c ≠ '\n' := by
  rw [List.mem_filter, categoryMatch, catScan_iff]

theorem searchDashGroup_append {pre suf : List Char} (h : '-' ∉ pre) :
    searchDashGroup (pre ++ '-' :: suf) = some suf := by
  induction pre with
  | nil => simp [searchDashGroup]
  | cons c cs ih =>
    have hc : ¬ c = '-' := fun hcc => h (hcc ▸ List.mem_cons_self _ _)
    simp only [List.cons_append, searchDashGroup, if_neg hc]
    exact ih (fun hm => h (List.mem_cons_of_mem _ hm))

theorem searchDashGroup_none {cs : List Char} (h : '-' ∉ cs) :
    searchDashGroup cs = none := by
  induction cs with
  | nil => rfl
  | cons c cs ih =>
    have hc : ¬ c = '-' := fun hcc => h (hcc ▸ List.mem_cons_self _ _)
    simp only [searchDashGroup, if_neg hc]
    exact ih (fun hm => h (List.mem_cons_of_mem _ hm))

/-- C1 counterexample: on a combined dataset whose first settlement
identifier is "A-B-Doe", the program extracts "B-Doe" — everything after
the FIRST hyphen — not "Doe" as the claim (everything after the last
hyphen) requires. -/
theorem mainExtract_counterexample :
    mainExtract ⟨["Liquidación"], [⟨"A-B-Doe", "p", none, "x", "0", "f"⟩]⟩ = some "B-Doe" ∧
    (some "B-Doe" : Option String) ≠ some "Doe" := by
  decide

/-- C1 (amended): for a first settlement identifier containing a hyphen,
the person under control is everything after the FIRST hyphen, stripped;
with no hyphen there is no match and the result stays null. -/
theorem mainExtract_first_hyphen (df : DataFrame) (r : Row) (rest : List Row)
    (pre suf : List Char)
    (hrows : df.rows = r :: rest)
    (hcol : df.columns.contains "Liquidación" = true) :
    (r.liquidacion.toList = pre ++ '-' :: suf ∧ '-' ∉ pre →
      mainExtract df = some (String.mk (pyStrip suf))) ∧
    ('-' ∉ r.liquidacion.toList → mainExtract df = none) := by
  constructor
  · rintro ⟨heq, hp⟩
    unfold mainExtract
    rw [if_pos hcol, hrows]
    show (personUnderControl r.liquidacion) = _
    unfold personUnderControl
    rw [heq, searchDashGroup_append hp]
    rfl
  · intro hno
    unfold mainExtract
    rw [if_pos hcol, hrows]
    show (personUnderControl r.liquidacion) = _
    unfold personUnderControl
    rw [searchDashGroup_none hno]
    rfl

/-- Witness for C1 (amended) at the concrete identifier "A-B-Doe". -/
theorem mainExtract_first_hyphen_witness :
    mainExtract ⟨["Liquidación"], [⟨"A-B-Doe", "p", none, "x", "0", "f"⟩]⟩ =
      some (String.mk (pyStrip "B-Doe".toList)) :=
  (mainExtract_first_hyphen ⟨["Liquidación"], [⟨"A-B-Doe", "p", none, "x", "0", "f"⟩]⟩
    ⟨"A-B-Doe", "p", none, "x", "0", "f"⟩ [] ['A'] "B-Doe".toList rfl (by decide)).1
    ⟨by decide, by decide⟩

/-- C9: a missing required column makes `process_data` abort with a
schema error naming exactly the missing columns, and no per-patient
report is produced. -/
theorem process_data_schema_error (df : DataFrame) (puc : String) (c : String)
    (hne : df.rows.isEmpty = false)
    (hreq : c ∈ requiredColumns) (hmiss : c ∉ df.columns) :
    process_data df puc =
      ProcResult.schemaError (requiredColumns.filter (fun x => !(df.columns.contains x))) ∧
    (∀ x, x ∈ requiredColumns.filter (fun x => !(df.columns.contains x)) ↔
      (x ∈ requiredColumns ∧ x ∉ df.columns)) ∧
    (∀ reps, process_data df puc ≠ ProcResult.report reps) := by
  have hall : (requiredColumns.all (fun x => df.columns.contains x)) = false := by
    rw [Bool.eq_false_iff]
    intro hget
    exact hmiss ((contains_iff _ _).mp (List.all_eq_true.mp hget c hreq))
  have h1 : process_data df puc =
      ProcResult.schemaError (requiredColumns.filter (fun x => !(df.columns.contains x))) := by
    unfold process_data
    rw [hne, hall]
    rfl
  refine ⟨h1, fun x => ?_, fun reps hr => ?_⟩
  · rw [List.mem_filter, Bool.not_eq_true', contains_eq_false_iff]
  · rw [h1] at hr
    cases hr

/-- Witness for C9: dataset with a patient column only — the error names
the five absent required columns and no report is emitted. -/
theorem process_data_schema_error_witness :
    process_data ⟨["Paciente"], [⟨"L", "p", none, "x", "0", "f"⟩]⟩ "X" =
      ProcResult.schemaError (requiredColumns.filter
        (fun x => !((["Paciente"] : List String).contains x))) ∧
    (∀ x, x ∈ requiredColumns.filter
        (fun x => !((["Paciente"] : List String).contains x)) ↔
      (x ∈ requiredColumns ∧ x ∉ (["Paciente"] : List String))) ∧
    (∀ reps, process_data ⟨["Paciente"], [⟨"L", "p", none, "x", "0", "f"⟩]⟩ "X" ≠
      ProcResult.report reps) :=
  process_data_schema_error ⟨["Paciente"], [⟨"L", "p", none, "x", "0", "f"⟩]⟩ "X"
    "Liquidación" (by decide) (by decide) (by decide)

/-- C7, evaluated at the failing input: one unparseable amount cell makes
`errors='ignore'` hand the whole column back unconverted, so no numeric
total exists at all — the bad record is not "silently excluded".  Without
the bad cell the very same rows total 5; a null (NaN) cell alone IS
excluded as the claim describes. -/
theorem computeTotal_unparseable_bug :
    computeTotal [⟨"L", "p", some 0, "x", "abc", "f"⟩,
      ⟨"L", "p", some 1, "x", "5,0", "f"⟩] = none ∧
    computeTotal [⟨"L", "p", some 1, "x", "5,0", "f"⟩] = some 5 ∧
    computeTotal [⟨"L", "p", some 0, "x", "nan", "f"⟩,
      ⟨"L", "p", some 1, "x", "5,0", "f"⟩] = some 5 := by
  have h50 : parseNum "5,0" = NumParse.num 5 := by
    show NumParse.num ((5 : Rat) + (0 : Rat) / 10 ^ 1) = NumParse.num 5
    norm_num
  have habc : parseNum "abc" = NumParse.fail := by decide
  have hnan : parseNum "nan" = NumParse.nanVal := by decide
  refine ⟨?_, ?_, ?_⟩ <;>
    simp [computeTotal, convertAndDrop, List.filterMap_cons, h50, habc, hnan]

theorem all_perm {α : Type} {rs rs' : List α} (hperm : rs.Perm rs') (p : α → Bool) :
    rs.all p = rs'.all p := by
  cases h : rs'.all p
  · rw [Bool.eq_false_iff] at h ⊢
    intro hc
    exact h (List.all_eq_true.mpr
      (fun x hx => List.all_eq_true.mp hc x (hperm.mem_iff.mpr hx)))
  · exact List.all_eq_true.mpr
      (fun x hx => List.all_eq_true.mp h x (hperm.mem_iff.mp hx))

theorem amounts_retag (g : Row → String) (rs : List Row) :
    (((rs.map (fun r => { r with sourceFile := g r })).filterMap (fun r =>
      match parseNum r.iLiquidado with
      | NumParse.num q => some (⟨r.fActividad, r.producto, q, r.sourceFile⟩ : PRow)
      | _ => none)).map (·.iLiquidado)) =
    ((rs.filterMap (fun r =>
      match parseNum r.iLiquidado with
      | NumParse.num q => some (⟨r.fActividad, r.producto, q, r.sourceFile⟩ : PRow)
      | _ => none)).map (·.iLiquidado)) := by
  induction rs with
  | nil => rfl
  | cons r rs ih =>
    simp only [List.map_cons, List.filterMap_cons]
    cases hp : parseNum r.iLiquidado <;> simp only [hp, List.map_cons, ih]

theorem computeTotal_perm {rs rs' : List Row} (hperm : rs.Perm rs') :
    computeTotal rs = computeTotal rs' := by
  unfold computeTotal convertAndDrop
  rw [all_perm hperm (fun r => decide (parseNum r.iLiquidado ≠ NumParse.fail))]
  cases h : rs'.all (fun r => decide (parseNum r.iLiquidado ≠ NumParse.fail))
  · rfl
  · simp only [if_pos rfl, Option.map_some]
    exact congrArg some ((List.Perm.map (fun p : PRow => p.iLiquidado)
      (hperm.filterMap _)).sum_eq)

theorem computeTotal_retag (g : Row → String) (rs : List Row) :
    computeTotal (rs.map (fun r => { r with sourceFile := g r })) = computeTotal rs := by
  unfold computeTotal convertAndDrop
  have hall : (rs.map (fun r => { r with sourceFile := g r })).all
      (fun r => decide (parseNum r.iLiquidado ≠ NumParse.fail)) =
      rs.all (fun r => decide (parseNum r.iLiquidado ≠ NumParse.fail)) := by
    rw [List.all_map]
    rfl
  rw [hall]
  cases h : rs.all (fun r => decide (parseNum r.iLiquidado ≠ NumParse.fail))
  · rfl
  · simp only [if_pos rfl, Option.map_some]
    exact congrArg some (congrArg List.sum (amounts_retag g rs))

/-- C8: `computeTotal` is invariant under permuting the rows and under
re-tagging rows with different source-file names (in particular, under
splitting one file's rows across two source files with identical combined
content). -/
theorem computeTotal_invariant (rs rs' : List Row) (g : Row → String)
    (hperm : rs.Perm rs') :
    computeTotal rs = computeTotal rs' ∧
    computeTotal (rs.map (fun r => { r with sourceFile := g r })) = computeTotal rs :=
  ⟨computeTotal_perm hperm, computeTotal_retag g rs⟩

/-- Witness for C8: swapping two concrete rows, and retagging their
source files, leaves the total unchanged. -/
theorem computeTotal_invariant_witness :
    computeTotal ([⟨"L", "p", some 0, "x", "5", "f"⟩, ⟨"L", "p", some 1, "x", "7", "f"⟩] : List Row) =
      computeTotal ([⟨"L", "p", some 1, "x", "7", "f"⟩, ⟨"L", "p", some 0, "x", "5", "f"⟩] : List Row) ∧
    computeTotal (([⟨"L", "p", some 0, "x", "5", "f"⟩,
        ⟨"L", "p", some 1, "x", "7", "f"⟩] : List Row).map
          (fun r => { r with sourceFile := (fun _ => "h") r })) =
      computeTotal ([⟨"L", "p", some 0, "x", "5", "f"⟩, ⟨"L", "p", some 1, "x", "7", "f"⟩] : List Row) :=
  computeTotal_invariant
    [⟨"L", "p", some 0, "x", "5", "f"⟩, ⟨"L", "p", some 1, "x", "7", "f"⟩]
    [⟨"L", "p", some 1, "x", "7", "f"⟩, ⟨"L", "p", some 0, "x", "5", "f"⟩]
    (fun _ => "h")
    (List.Perm.swap _ _ _)

theorem mem_moneyPerDay {rows : List PRow} {d : Nat} {a : Rat} :
    (d, a) ∈ moneyPerDay rows ↔ d ∈ dayKeys rows ∧ a = daySum rows d := by
  unfold moneyPerDay
  simp only [List.mem_map]
  constructor
  · rintro ⟨k, hk, heq⟩
    injection heq with h1 h2
    subst h1
    exact ⟨hk, h2.symm⟩
  · rintro ⟨hd, rfl⟩
    exact ⟨d, hd, rfl⟩

theorem moneyPerDay_lookup {rows : List PRow} {d : Nat} (h : d ∈ dayKeys rows) :
    (moneyPerDay rows).lookup d = some (daySum rows d) :=
  lookup_mapKeys (daySum rows) _ d h

theorem mem_crossFileDates {rows : List PRow} {d : Nat} :
    d ∈ crossFileDates rows ↔ d ∈ dayKeys rows ∧ 1 < daySources rows d := by
  unfold crossFileDates
  rw [List.mem_filter, decide_eq_true_eq]

theorem two_le_count_map (f : Nat → Rat) {l : List Nat} {d1 d2 : Nat}
    (h1 : d1 ∈ l) (h2 : d2 ∈ l) (hne : d1 ≠ d2) (hf : f d1 = f d2) :
    2 ≤ (l.map f).count (f d1) := by
  induction l with
  | nil => cases h1
  | cons a t ih =>
    rcases List.mem_cons.mp h1 with rfl | h1d
    · have hd2t : d2 ∈ t := (List.mem_cons.mp h2).resolve_left (fun hh => hne hh.symm)
      rw [List.map_cons, List.count_cons_self]
      have hpos : 0 < (t.map f).count (f d1) := by
        rw [hf]
        exact List.count_pos_iff.mpr (List.mem_map_of_mem f hd2t)
      omega
    · rcases List.mem_cons.mp h2 with rfl | h2d
      · rw [List.map_cons, hf, List.count_cons_self]
        have hpos : 0 < (t.map f).count (f d2) := by
          rw [← hf]
          exact List.count_pos_iff.mpr (List.mem_map_of_mem f h1d)
        omega
      · have := ih h1d h2d
        rw [List.map_cons, List.count_cons]
        omega

theorem count_map_le_one (f : Nat → Rat) {l : List Nat} {w : Rat} {d0 : Nat}
    (hnd : l.Nodup) (h : ∀ d ∈ l, f d = w → d = d0) :
    (l.map f).count w ≤ 1 := by
  induction l with
  | nil => simp
  | cons a t ih =>
    rcases List.nodup_cons.mp hnd with ⟨hat, hndt⟩
    by_cases hfa : f a = w
    · have ha0 : a = d0 := h a (List.mem_cons_self _ _) hfa
      have hzero : (t.map f).count w = 0 := by
        rw [List.count_eq_zero]
        intro hmem
        rcases List.mem_map.mp hmem with ⟨d, hdt, hfd⟩
        have hdd : d = d0 := h d (List.mem_cons_of_mem _ hdt) hfd
        exact hat ((ha0.trans hdd.symm) ▸ hdt)
      rw [List.map_cons, List.count_cons, hzero]
      simp [hfa]
    · have := ih hndt (fun d hd => h d (List.mem_cons_of_mem _ hd))
      have hbeq : (f a == w) = false := beq_eq_false_iff_ne.mpr hfa
      rw [List.map_cons, List.count_cons, hbeq]
      simpa using this

theorem exists_two_others {l : List Nat} {d0 : Nat} (hnd : l.Nodup)
    (hlen : 3 ≤ l.length) (hd0 : d0 ∈ l) :
    ∃ d1 d2, d1 ∈ l ∧ d2 ∈ l ∧ d1 ≠ d2 ∧ d1 ≠ d0 ∧ d2 ≠ d0 := by
  have hleer : 2 ≤ (l.erase d0).length := by
    rw [List.length_erase_of_mem hd0]
    omega
  have hd0ner : d0 ∉ l.erase d0 := fun hh => hnd.not_mem_erase hh
  rcases he : l.erase d0 with _ | ⟨a, t⟩
  · rw [he] at hleer; simp at hleer
  · rcases t with _ | ⟨b, t'⟩
    · rw [he] at hleer; simp at hleer
    · have hnder : (a :: b :: t').Nodup := he ▸ hnd.erase d0
      have hma : a ∈ l.erase d0 := by rw [he]; exact List.mem_cons_self _ _
      have hmb : b ∈ l.erase d0 := by
        rw [he]; exact List.mem_cons_of_mem _ (List.mem_cons_self _ _)
      have hab : a ≠ b := by
        rcases List.nodup_cons.mp hnder with ⟨ha, -⟩
        exact fun hh => ha (hh ▸ List.mem_cons_self _ _)
      refine ⟨a, b, List.erase_subset _ _ hma, List.erase_subset _ _ hmb, hab, ?_, ?_⟩
      · rintro rfl; rw [he] at hd0ner; exact hd0ner (List.mem_cons_self _ _)
      · rintro rfl
        rw [he] at hd0ner
        exact hd0ner (List.mem_cons_of_mem _ (List.mem_cons_self _ _))

theorem crossFileDates_eq_nil {rows : List PRow}
    (h : ∀ d ∈ dayKeys rows, daySources rows d ≤ 1) :
    crossFileDates rows = [] := by
  unfold crossFileDates
  refine List.filter_eq_nil_iff.mpr (fun d hd => ?_)
  intro hdec
  rw [decide_eq_true_eq] at hdec
  exact absurd hdec (Nat.not_lt.mpr (h d hd))

/-- C5: on a (patient, product) slice where every day's aggregated amount
is the same and no day's rows span several source files, nothing is
flagged; and on a slice where exactly one day's aggregate differs from
the common value of the (at least two) other days, still single-source,
exactly that day is flagged, with reason unusual-payment. -/
theorem detectAnomalousPayments_spec (rows : List PRow) (d0 : Nat) (v w : Rat) :
    ((∀ p ∈ moneyPerDay rows, ∀ q ∈ moneyPerDay rows, p.2 = q.2) ∧
        (∀ d ∈ dayKeys rows, daySources rows d ≤ 1) →
      detectAnomalousPayments rows = []) ∧
    ((d0, w) ∈ moneyPerDay rows → w ≠ v →
        (∀ p ∈ moneyPerDay rows, p.1 ≠ d0 → p.2 = v) →
        3 ≤ (moneyPerDay rows).length →
        (∀ d ∈ dayKeys rows, daySources rows d ≤ 1) →
      detectAnomalousPayments rows = [(d0, some w, Reason.unusualPayment)]) := by
  constructor
  · rintro ⟨hall, hsingle⟩
    have hcross : crossFileDates rows = [] := crossFileDates_eq_nil hsingle
    have hweird : weirdPaymentDates rows = [] := by
      unfold weirdPaymentDates
      rcases hmc : mostCommonValue ((moneyPerDay rows).map (·.2)) with _ | m
      · rw [hmc]
      · rw [hmc]
        refine List.filter_eq_nil_iff.mpr (fun d hd => ?_)
        intro hdec
        rw [decide_eq_true_eq] at hdec
        have hdm : (d, daySum rows d) ∈ moneyPerDay rows := mem_moneyPerDay.mpr ⟨hd, rfl⟩
        have hm : m ∈ (moneyPerDay rows).map (·.2) := (mostCommonValue_spec hmc).1
        rcases List.mem_map.mp hm with ⟨q, hq, hq2⟩
        exact hdec ((hall _ hdm _ hq).trans hq2)
    unfold detectAnomalousPayments
    rw [hweird, hcross]
    have hnilf : (dayKeys rows).filter
        (fun d => (([] : List Nat).contains d || ([] : List Nat).contains d)) = [] :=
      List.filter_eq_nil_iff.mpr (fun d _ => by simp)
    rw [hnilf]
    rfl
  · intro hd0w hwv hothers hlen hsingle
    have hcross : crossFileDates rows = [] := crossFileDates_eq_nil hsingle
    have hknd : (dayKeys rows).Nodup := dayKeys_nodup rows
    rcases mem_moneyPerDay.mp hd0w with ⟨hd0k, rfl⟩
    have hvals : (moneyPerDay rows).map (·.2) =
        (dayKeys rows).map (fun d => daySum rows d) := by
      unfold moneyPerDay
      rw [List.map_map]
      rfl
    have hlenk : 3 ≤ (dayKeys rows).length := by
      have hlm : (moneyPerDay rows).length = (dayKeys rows).length := by
        unfold moneyPerDay
        rw [List.length_map]
      omega
    have hothersk : ∀ d ∈ dayKeys rows, d ≠ d0 → daySum rows d = v := fun d hd hne =>
      hothers (d, daySum rows d) (mem_moneyPerDay.mpr ⟨hd, rfl⟩) hne
    rcases exists_two_others hknd hlenk hd0k with ⟨d1, d2, h1k, h2k, h12, h10, h20⟩
    have hv1 : daySum rows d1 = v := hothersk d1 h1k h10
    have hv2 : daySum rows d2 = v := hothersk d2 h2k h20
    have hvne : (moneyPerDay rows).map (·.2) ≠ [] := by
      intro hnil
      rw [List.map_eq_nil_iff] at hnil
      rw [hnil] at hlen
      simp at hlen
    rcases mostCommonValue_isSome hvne with ⟨m, hmc⟩
    rcases mostCommonValue_spec hmc with ⟨hmmem, hmcount⟩
    have hmv : m = v := by
      rcases List.mem_map.mp hmmem with ⟨p, hp, hp2⟩
      by_cases hpd : p.1 = d0
      · exfalso
        have hcv : 2 ≤ ((dayKeys rows).map (fun d => daySum rows d)).count v := by
          have hc := two_le_count_map (fun d => daySum rows d) h1k h2k h12
            (hv1.trans hv2.symm)
          rwa [show ((fun d => daySum rows d) d1) = v from hv1] at hc
        have hcw : ((dayKeys rows).map
            (fun d => daySum rows d)).count (daySum rows d0) ≤ 1 := by
          refine @count_map_le_one (fun d => daySum rows d) (dayKeys rows)
            (daySum rows d0) d0 hknd (fun d hd hfd => ?_)
          have hfd2 : daySum rows d = daySum rows d0 := hfd
          by_contra hne
          exact hwv (by rw [← hfd2, hothersk d hd hne])
        have hpw : p.2 = daySum rows d0 := by
          rcases p with ⟨pd, pa⟩
          rcases mem_moneyPerDay.mp hp with ⟨-, rfl⟩
          simp only at hpd
          rw [hpd]
        have hmw : m = daySum rows d0 := hp2.symm.trans hpw
        have hvv : v ∈ (moneyPerDay rows).map (·.2) := by
          rw [hvals]
          exact hv1 ▸ List.mem_map_of_mem _ h1k
        have hle := hmcount v hvv
        rw [hvals, hmw] at hle
        omega
      · exact hp2.symm.trans (hothers p hp hpd)
    have hweird : weirdPaymentDates rows = [d0] := by
      unfold weirdPaymentDates
      rw [hmc, hmv]
      refine filter_eq_single hknd hd0k (fun d hd => ?_)
      rw [decide_eq_true_eq]
      constructor
      · intro hdne
        by_contra hne
        exact hdne (hothersk d hd hne)
      · rintro rfl
        exact hwv
    unfold detectAnomalousPayments
    rw [hweird, hcross]
    have hfilter : (dayKeys rows).filter
        (fun d => (([d0] : List Nat).contains d || ([] : List Nat).contains d)) = [d0] := by
      refine filter_eq_single hknd hd0k (fun d hd => ?_)
      simp [contains_iff]
    rw [hfilter, List.map_cons, List.map_nil, moneyPerDay_lookup hd0k,
      if_neg (Nat.not_lt.mpr (hsingle d0 hd0k))]

/-- C6: the flagged-date list is chronologically sorted with each date
appearing at most once, and every date whose rows span more than one
source file appears in it tagged multi-source — even when its daily sum
equals the modal aggregate, and as a single multi-source entry even when
the date also qualifies as an unusual payment. -/
theorem detectAnomalousPayments_multiSource (rows : List PRow) :
    ((detectAnomalousPayments rows).map (fun e => e.1)).Pairwise (· < ·) ∧
    ∀ d, d ∈ crossFileDates rows →
      (d, some (daySum rows d), Reason.multiSource) ∈ detectAnomalousPayments rows := by
  constructor
  · unfold detectAnomalousPayments
    rw [List.map_map]
    have hid : ((fun e : Nat × Option Rat × Reason => e.1) ∘
        (fun d => (d, (moneyPerDay rows).lookup d,
          if 1 < daySources rows d then Reason.multiSource else Reason.unusualPayment)))
        = fun d => d := rfl
    rw [hid, List.map_id']
    exact ((dayKeys_pairwise rows).filter _)
  · intro d hd
    rcases mem_crossFileDates.mp hd with ⟨hdk, hsrc⟩
    unfold detectAnomalousPayments
    refine List.mem_map.mpr ⟨d, ?_, ?_⟩
    · refine List.mem_filter.mpr ⟨hdk, ?_⟩
      rw [Bool.or_eq_true]
      exact Or.inr ((contains_iff _ _).mpr hd)
    · rw [moneyPerDay_lookup hdk, if_pos hsrc]

/-- Witness for C6: date 2 is split across files "f" and "g" and its sum
equals the modal aggregate 5; it is still flagged, once, as multi-source,
and the flagged dates are strictly sorted. -/
theorem detectAnomalousPayments_multiSource_witness :
    ((detectAnomalousPayments [⟨some 1, "P", 5, "f"⟩, ⟨some 2, "P", 2, "f"⟩,
        ⟨some 2, "P", 3, "g"⟩, ⟨some 3, "P", 5, "f"⟩]).map (fun e => e.1)).Pairwise (· < ·) ∧
    ((2 : Nat), some (daySum [⟨some 1, "P", 5, "f"⟩, ⟨some 2, "P", 2, "f"⟩,
        ⟨some 2, "P", 3, "g"⟩, ⟨some 3, "P", 5, "f"⟩] 2), Reason.multiSource) ∈
      detectAnomalousPayments [⟨some 1, "P", 5, "f"⟩, ⟨some 2, "P", 2, "f"⟩,
        ⟨some 2, "P", 3, "g"⟩, ⟨some 3, "P", 5, "f"⟩] :=
  ⟨(detectAnomalousPayments_multiSource _).1,
   (detectAnomalousPayments_multiSource _).2 2 (by decide)⟩

/-- Witness for C5: three single-source days all aggregating 5 produce no
flags; changing day 2's aggregate to 7 flags exactly day 2 as an unusual
payment. -/
theorem detectAnomalousPayments_spec_witness :
    detectAnomalousPayments [⟨some 1, "P", 5, "f"⟩, ⟨some 2, "P", 5, "f"⟩,
      ⟨some 3, "P", 5, "f"⟩] = [] ∧
    detectAnomalousPayments [⟨some 1, "P", 5, "f"⟩, ⟨some 2, "P", 7, "f"⟩,
      ⟨some 3, "P", 5, "f"⟩] = [((2 : Nat), some (7 : Rat), Reason.unusualPayment)] := by
  constructor
  · refine (detectAnomalousPayments_spec
      [⟨some 1, "P", 5, "f"⟩, ⟨some 2, "P", 5, "f"⟩, ⟨some 3, "P", 5, "f"⟩]
      0 0 0).1 ⟨?_, by decide⟩
    have hds : ∀ d ∈ dayKeys [⟨some 1, "P", (5 : Rat), "f"⟩, ⟨some 2, "P", 5, "f"⟩,
        ⟨some 3, "P", 5, "f"⟩], daySum [⟨some 1, "P", (5 : Rat), "f"⟩, ⟨some 2, "P", 5, "f"⟩,
        ⟨some 3, "P", 5, "f"⟩] d = 5 := by
      intro d hd
      have hk : dayKeys [⟨some 1, "P", (5 : Rat), "f"⟩, ⟨some 2, "P", 5, "f"⟩,
          ⟨some 3, "P", 5, "f"⟩] = [1, 2, 3] := by decide
      rw [hk] at hd
      simp only [List.mem_cons, List.not_mem_nil, or_false] at hd
      rcases hd with rfl | rfl | rfl <;>
        simp [daySum, List.filter_cons, List.filter_nil]
    intro p hp q hq
    rcases p with ⟨pd, pa⟩
    rcases q with ⟨qd, qa⟩
    rcases mem_moneyPerDay.mp hp with ⟨hpd, rfl⟩
    rcases mem_moneyPerDay.mp hq with ⟨hqd, rfl⟩
    show daySum _ pd = daySum _ qd
    rw [hds pd hpd, hds qd hqd]
  · refine (detectAnomalousPayments_spec
      [⟨some 1, "P", 5, "f"⟩, ⟨some 2, "P", 7, "f"⟩, ⟨some 3, "P", 5, "f"⟩]
      2 5 7).2 ?_ (by norm_num) ?_ ?_ (by decide)
    · refine mem_moneyPerDay.mpr ⟨by decide, ?_⟩
      simp [daySum, List.filter_cons, List.filter_nil]
    · intro p hp hne
      rcases p with ⟨pd, pa⟩
      rcases mem_moneyPerDay.mp hp with ⟨hpd, rfl⟩
      have hk : dayKeys [⟨some 1, "P", (5 : Rat), "f"⟩, ⟨some 2, "P", 7, "f"⟩,
          ⟨some 3, "P", 5, "f"⟩] = [1, 2, 3] := by decide
      rw [hk] at hpd
      simp only at hne
      simp only [List.mem_cons, List.not_mem_nil, or_false] at hpd
      rcases hpd with rfl | rfl | rfl
      · show daySum _ 1 = 5
        simp [daySum, List.filter_cons, List.filter_nil]
      · exact absurd rfl hne
      · show daySum _ 3 = 5
        simp [daySum, List.filter_cons, List.filter_nil]
    · show 3 ≤ (moneyPerDay _).length
      unfold moneyPerDay
      rw [show dayKeys [⟨some 1, "P", (5 : Rat), "f"⟩, ⟨some 2, "P", 7, "f"⟩,
        ⟨some 3, "P", 5, "f"⟩] = [1, 2, 3] from by decide]
      simp

theorem mem_of_convertAndDrop {rows : List Row} {kept : List PRow}
    (hconv : convertAndDrop rows = some kept) {r' : PRow} (hr' : r' ∈ kept) :
    ∃ r ∈ rows, r'.fActividad = r.fActividad ∧ r'.producto = r.producto ∧
      parseNum r.iLiquidado = NumParse.num r'.iLiquidado := by
  unfold convertAndDrop at hconv
  cases hall : rows.all (fun r => decide (parseNum r.iLiquidado ≠ NumParse.fail)) with
  | false => rw [hall] at hconv; cases hconv
  | true =>
    rw [hall, if_pos rfl] at hconv
    injection hconv with hkept
    rw [← hkept] at hr'
    rcases List.mem_filterMap.mp hr' with ⟨r, hr, hf⟩
    refine ⟨r, hr, ?_⟩
    rcases hp : parseNum r.iLiquidado with q | _ | _ <;> rw [hp] at hf
    · injection hf with hf'
      rw [← hf']
      exact ⟨rfl, rfl, rfl⟩
    · cases hf
    · cases hf

/-- C10: when the per-patient amount conversion succeeds, a calendar day
on which every category-matching row carries a null amount is absent from
the present-day set of the kept rows (the null-amount rows were dropped
before the gap analysis), and, lying within the observed range, it is
reported as a missing day. -/
theorem null_amount_rows_become_gaps (rows : List Row) (kept : List PRow)
    (d mn mx : Nat)
    (hconv : convertAndDrop rows = some kept)
    (hnulld : ∀ r ∈ rows, categoryMatch r.producto = true → r.fActividad = some d →
      parseNum r.iLiquidado = NumParse.nanVal)
    (h2 : 2 ≤ (presentDays kept).length)
    (hmn : (presentDays kept).min? = some mn)
    (hmx : (presentDays kept).max? = some mx)
    (hdmn : mn ≤ d) (hdmx : d ≤ mx) :
    d ∉ presentDays kept ∧ fmtDate d ∈ find_missing_dates kept := by
  have hdnp : d ∉ presentDays kept := by
    intro hdp
    rcases mem_presentDays.mp hdp with ⟨r', hr', hcat, hdate⟩
    rcases mem_of_convertAndDrop hconv hr' with ⟨r, hr, hfa, hpr, hnum⟩
    have hnan : parseNum r.iLiquidado = NumParse.nanVal :=
      hnulld r hr (hpr ▸ hcat) (hfa ▸ hdate)
    rw [hnum] at hnan
    cases hnan
  refine ⟨hdnp, ?_⟩
  rw [find_missing_dates_eq h2 hmn hmx]
  refine List.mem_map_of_mem fmtDate ?_
  have hse : mn ≤ mx := (natMin?_spec hmn).2 mx (natMax?_spec hmx).1
  refine List.mem_filter.mpr ⟨(mem_rangeMap hse).mpr ⟨hdmn, hdmx⟩, ?_⟩
  rw [Bool.not_eq_true', contains_eq_false_iff]
  exact hdnp

/-- Witness for C10: day 1 has activity, but only with a null amount; it
is reported as the missing day between days 0 and 2. -/
theorem null_amount_rows_become_gaps_witness :
    (1 : Nat) ∉ presentDays [⟨some 0, "INGRESO NO QUIR.", 5, "f"⟩,
      ⟨some 2, "INGRESO NO QUIR.", 5, "f"⟩] ∧
    fmtDate 1 ∈ find_missing_dates [⟨some 0, "INGRESO NO QUIR.", 5, "f"⟩,
      ⟨some 2, "INGRESO NO QUIR.", 5, "f"⟩] :=
  null_amount_rows_become_gaps
    [⟨"L", "p", some 0, "INGRESO NO QUIR.", "5", "f"⟩,
     ⟨"L", "p", some 1, "INGRESO NO QUIR.", "nan", "f"⟩,
     ⟨"L", "p", some 2, "INGRESO NO QUIR.", "5", "f"⟩]
    [⟨some 0, "INGRESO NO QUIR.", 5, "f"⟩, ⟨some 2, "INGRESO NO QUIR.", 5, "f"⟩]
    1 0 2 (by decide) (by decide) (by decide) (by decide) (by decide)
    (by decide) (by decide)

end PatientApp
